import Mathlib

/-!
Verification of the printbot submission-state coordinator.

The definitions below are a shallow embedding of the relevant parts of
`src/index.js` and `src/utils/security.js`:

* the pending-print-request registry (`global.pendingPrintRequests`), a
  JS `Map` from request id to request record, modelled as an ordered
  association list (JS `Map` iteration is insertion order, `Map.set` on
  an existing key updates in place);
* the wait-list (`waiting`), a `Map` from `channel:user` key to an entry
  carrying an absolute expiry time;
* the pending-file registry (`global.pendingFiles`) used by the legacy
  no-form upload path;
* the periodic wait-list sweep (`setInterval` block) and the filename
  sanitizer (`sanitizeFilename`).

Times are millisecond timestamps, modelled as `Nat` (`Date.now()`).
External collaborators (Slack, Drive, Sheets) are effect-free in this
model; the number of invocations of the upload+log pipeline is tracked
by a counter, and appended sheet rows by a list.
-/

namespace Printbot

/-- Status values stored in `request.status` in `src/index.js`
(`'pending_file_upload'` at creation, `'completed'` on completion). -/
inductive RequestStatus where
  | pending_file_upload
  | completed
deriving DecidableEq, Repr

/-- A value of `global.pendingPrintRequests`: the object built in the
`print_request_modal` view handler, later extended by the `file_shared`
handler on completion. -/
structure PrintRequest where
  user_id : String
  project : String
  printer : String
  materials : String
  notes : String
  submittedAt : Nat
  status : RequestStatus
  completedAt : Option Nat := none
  fileId : Option String := none
  fileName : Option String := none
deriving DecidableEq, Repr

/-- Ordered association list standing for a JS `Map` (iteration order =
insertion order). -/
abbrev MapList (α : Type) := List (String × α)

/-- JS `Map.prototype.set`: update in place if the key is present,
append otherwise. -/
def mapSet {α : Type} (k : String) (v : α) : MapList α → MapList α
  | [] => [(k, v)]
  | (k', v') :: rest => if k' = k then (k, v) :: rest else (k', v') :: mapSet k v rest

/-- JS `Map.prototype.get`: first binding of the key, if any. -/
def mapGet {α : Type} (k : String) : MapList α → Option α
  | [] => none
  | (k', v') :: rest => if k' = k then some v' else mapGet k rest

/-- JS `Map.prototype.delete`: remove the binding of the key. -/
def mapDelete {α : Type} (k : String) : MapList α → MapList α
  | [] => []
  | (k', v') :: rest => if k' = k then rest else (k', v') :: mapDelete k rest

/-- The keys of a map, in order. -/
def mapKeys {α : Type} (m : MapList α) : List String := m.map Prod.fst

/-! ## Wait-list sweep (src/index.js, `setInterval` block, lines 1160–1176)

The wait-list stores, per `channel:user` key, an entry whose only
state-relevant field is `expiresAt` (the stored `respond` handle is an
opaque callback).  The sweep iterates over the entries and deletes every
entry with `value.expiresAt < now`, counting the deletions. -/

/-- The sweep body: walks the entries in order, deletes those with
`expiresAt < now` (note: strict `<` in the source), returns the
surviving map together with the `cleaned` counter. -/
def sweep (w : MapList Nat) (now : Nat) : MapList Nat × Nat :=
  match w with
  | [] => ([], 0)
  | (k, e) :: rest =>
      let (w', c) := sweep rest now
      if e < now then (w', c + 1) else ((k, e) :: w', c)

/-- The sweep as the spec words it (`sweep(now)` removes every entry
whose expiry is *at or before* `now`, i.e. `expiresAt ≤ now`), for
comparison with the source's `sweep`. -/
def sweepSpecLe (w : MapList Nat) (now : Nat) : MapList Nat × Nat :=
  (w.filter (fun e => !(e.2 ≤ now)), (w.filter (fun e => e.2 ≤ now)).length)

/-! ## Filename sanitizer (src/utils/security.js, lines 63–68)

```js
filename.replace(/[^a-zA-Z0-9.-]/g, '_').replace(/_{2,}/g, '_').substring(0, 255)
```
-/

/-- Characters kept by the first `replace`: the regex class
`[a-zA-Z0-9.-]`. -/
def isKeptChar (c : Char) : Bool :=
  ('a' ≤ c && c ≤ 'z') || ('A' ≤ c && c ≤ 'Z') || ('0' ≤ c && c ≤ '9') || c = '.' || c = '-'

/-- First `replace`: every character outside `[a-zA-Z0-9.-]` becomes `'_'`. -/
def replaceSpecial (c : Char) : Char := if isKeptChar c then c else '_'

/-- Second `replace`: `/_{2,}/g → '_'`, i.e. collapse every maximal run
of two or more underscores to a single underscore. -/
def collapseUnderscores : List Char → List Char
  | [] => []
  | [c] => [c]
  | a :: b :: rest =>
      if a = '_' ∧ b = '_' then collapseUnderscores (b :: rest)
      else a :: collapseUnderscores (b :: rest)

/-- `sanitizeFilename` from `src/utils/security.js`. -/
def sanitizeFilename (s : String) : String :=
  ⟨(collapseUnderscores (s.data.map replaceSpecial)).take 255⟩

/-- A character allowed in the sanitized output: ASCII letter, digit,
`'.'`, `'-'` or `'_'`. -/
def isAllowedOut (c : Char) : Bool := isKeptChar c || c = '_'

/-- No two consecutive underscores in a character list. -/
def noDoubleUnderscore : List Char → Prop
  | a :: b :: rest => ¬(a = '_' ∧ b = '_') ∧ noDoubleUnderscore (b :: rest)
  | _ => True

/-! ## Modal view submission (src/index.js, `app.view('print_request_modal')`,
lines 765–873)

The handler extracts the selected values from the view state (a dropdown
with no selection yields `undefined`, modelled as `none`; the two text
inputs default to `''`), computes the effective material, runs five
validation checks in order — each failure posts a message naming one
field and returns — and on success stores a fresh
`pending_file_upload` record in `global.pendingPrintRequests`. -/

/-- The values extracted from the submitted view state.  `project` is
the first `project_section_*` block carrying a selection. -/
structure ViewValues where
  project : Option String
  printer : Option String
  materials : Option String
  customMaterial : String
  notes : String
deriving DecidableEq, Repr

/-- JS truthiness/placeholder test used on the dropdown values:
`!x || x === 'none'` (an absent selection is `undefined`, and the empty
string is falsy). -/
def isFalsyOrNone : Option String → Bool
  | none => true
  | some s => s = "" || s = "none"

/-- Whitespace as trimmed by JS `String.prototype.trim`. -/
def isJsSpace (c : Char) : Bool :=
  c = ' ' || c = '\t' || c = '\n' || c = '\r' || c = '\x0b' || c = '\x0c'

/-- JS `String.prototype.trim`: strip whitespace from both ends. -/
def jsTrim (s : String) : String :=
  ⟨(((s.data.dropWhile isJsSpace).reverse.dropWhile isJsSpace).reverse)⟩

/-- `finalMaterial` from the handler:
`materials === 'Other' && customMaterial.trim() ? customMaterial.trim() : materials`. -/
def finalMaterial (v : ViewValues) : Option String :=
  if v.materials = some "Other" ∧ jsTrim v.customMaterial ≠ "" then
    some (jsTrim v.customMaterial)
  else v.materials

/-- The required fields of the form, in the order the handler checks
them. -/
inductive ReqField where
  | project
  | printer
  | materials
  | customMaterial
  | notes
deriving DecidableEq, Repr

/-- Outcome of the view handler: a rejection message naming one field,
or acceptance (record stored, confirmation posted). -/
inductive SubmitOutcome where
  | rejected (f : ReqField)
  | accepted (id : String)
deriving DecidableEq, Repr

/-- The `print_request_modal` view handler: the five validation checks
in source order, then the registry insertion
`global.pendingPrintRequests.set(printRequestId, printRequest)` with
`status: 'pending_file_upload'` and `submittedAt: Date.now()`.
`newId` stands for the generated `printRequestId`. -/
def viewSubmit (v : ViewValues) (user newId : String) (now : Nat)
    (reg : MapList PrintRequest) : MapList PrintRequest × SubmitOutcome :=
  if isFalsyOrNone v.project then (reg, .rejected .project)
  else if isFalsyOrNone v.printer then (reg, .rejected .printer)
  else if isFalsyOrNone (finalMaterial v) then (reg, .rejected .materials)
  else if v.materials = some "Other" ∧ jsTrim v.customMaterial = "" then
    (reg, .rejected .customMaterial)
  else if jsTrim v.notes = "" then (reg, .rejected .notes)
  else
    (mapSet newId
      { user_id := user
        project := v.project.getD ""
        printer := v.printer.getD ""
        materials := (finalMaterial v).getD ""
        notes := v.notes
        submittedAt := now
        status := .pending_file_upload } reg,
     .accepted newId)

/-- Whether `f` fails the handler's validation criterion for that field
(the condition of the corresponding check in the source). -/
def fieldFails (f : ReqField) (v : ViewValues) : Bool :=
  match f with
  | .project => isFalsyOrNone v.project
  | .printer => isFalsyOrNone v.printer
  | .materials => isFalsyOrNone (finalMaterial v)
  | .customMaterial => decide (v.materials = some "Other" ∧ jsTrim v.customMaterial = "")
  | .notes => jsTrim v.notes = ""

/-- The check order of the handler. -/
def checkOrder : List ReqField := [.project, .printer, .materials, .customMaterial, .notes]

/-- The claim's notion of an invalid required field: "missing, empty, or
the placeholder value `'none'`" applied uniformly to project, printer,
materials, custom material (when `'Other'` is selected) and notes. -/
def specFieldInvalid (f : ReqField) (v : ViewValues) : Bool :=
  match f with
  | .project => isFalsyOrNone v.project
  | .printer => isFalsyOrNone v.printer
  | .materials => isFalsyOrNone v.materials
  | .customMaterial =>
      decide (v.materials = some "Other") &&
        (v.customMaterial = "" || v.customMaterial = "none")
  | .notes => v.notes = "" || v.notes = "none"

/-! ## The file-shared event handler and the bot state
(src/index.js, `app.event('file_shared')`, lines 506–605, together with
`processFile`, lines 965–1158)

The handler scans `global.pendingPrintRequests` for the first record
with `request.user_id === user && request.status === 'pending_file_upload'`.
On a hit it marks the record completed in place and runs the upload+log
pipeline (`processPrintRequest`).  On a miss it consults the wait-list
under `keyFor(channel, user)`: absent → silently return; expired
(`Date.now() > wait.expiresAt`) → delete and send the "window expired"
message; otherwise delete and run `processFile`, which uploads and (when
the project list is non-empty) stores a `pendingFiles` record whose
deletion is scheduled 5 minutes later. -/

/-- A value of `global.pendingFiles`: the data stored by `processFile`
while the user fills the follow-up project/notes form. -/
structure PendingFile where
  fileName : String
  userName : String
  channel_id : String
  user_id : String
  createdAt : Nat
deriving DecidableEq, Repr

/-- A row appended to the sheet by `submit_file_log`
(user, file name, project, notes). -/
structure LogRow where
  userName : String
  fileName : String
  project : String
  notes : String
deriving DecidableEq, Repr

/-- The mutable in-process state: the three registries plus
observability counters — `uploads` counts invocations of the upload+log
pipeline (`processPrintRequest` / `processFile`), `fileLog` the rows
appended by the `submit_file_log` action. -/
structure BotState where
  pendingPrintRequests : MapList PrintRequest
  waiting : MapList Nat
  pendingFiles : MapList PendingFile
  uploads : Nat
  fileLog : List LogRow
deriving DecidableEq, Repr

/-- `keyFor` from src/index.js line 53. -/
def keyFor (channel user : String) : String := channel ++ ":" ++ user

/-- The loop predicate of the `file_shared` handler:
`request.user_id === user && request.status === 'pending_file_upload'`. -/
def matchesAwaiting (user : String) (e : String × PrintRequest) : Bool :=
  e.2.user_id = user && e.2.status = RequestStatus.pending_file_upload

/-- The `for (const [id, request] of pendingPrintRequests.entries())`
scan: the first matching record in insertion order, or none. -/
def findAwaiting (reg : MapList PrintRequest) (user : String) :
    Option (String × PrintRequest) :=
  match reg with
  | [] => none
  | e :: rest => if matchesAwaiting user e then some e else findAwaiting rest user

/-- Number of `pending_file_upload` records for a requester. -/
def countAwaiting (reg : MapList PrintRequest) (user : String) : Nat :=
  (reg.filter (matchesAwaiting user)).length

/-- Timeout on a `pendingFiles` record: `5 * 60 * 1000` ms
(src/index.js line 1052). -/
def pendingFileTimeout : Nat := 5 * 60 * 1000

/-- The state effect of `processFile`: the upload+log pipeline runs
(Drive upload happens unconditionally), and when the fetched project
list is non-empty a `pendingFiles` record is stored under a fresh
`fileId`, with its deletion scheduled `pendingFileTimeout` ms after
creation.  Returns the new state and the scheduled deletion deadline,
if any. -/
def processFileEffect (st : BotState) (fileName userName channel user : String)
    (projectsNonEmpty : Bool) (newFileId : String) (now : Nat) :
    BotState × Option Nat :=
  if projectsNonEmpty then
    ({ st with
        uploads := st.uploads + 1
        pendingFiles := mapSet newFileId
          { fileName := fileName, userName := userName,
            channel_id := channel, user_id := user, createdAt := now }
          st.pendingFiles },
     some (now + pendingFileTimeout))
  else
    ({ st with uploads := st.uploads + 1 }, none)

/-- Outcome of one `file_shared` delivery. -/
inductive FileSharedOutcome where
  | completedRequest (id : String)
  | ignored
  | expiredWindow
  | waitMatched
deriving DecidableEq, Repr

/-- One `file_shared` delivery (src/index.js lines 506–605), for a file
with id `fileId` / name `fileName` shared by `user` in `channel` at
time `now`.  `projectsNonEmpty` and `newFileId` parameterize the
`processFile` call on the wait-list match path. -/
def fileShared (st : BotState) (channel user fileId fileName : String) (now : Nat)
    (userName : String) (projectsNonEmpty : Bool) (newFileId : String) :
    BotState × FileSharedOutcome :=
  match findAwaiting st.pendingPrintRequests user with
  | some (id, req) =>
      let req' := { req with
        status := RequestStatus.completed
        completedAt := some now
        fileId := some fileId
        fileName := some fileName }
      ({ st with
          pendingPrintRequests := mapSet id req' st.pendingPrintRequests
          uploads := st.uploads + 1 },
       .completedRequest id)
  | none =>
      match mapGet (keyFor channel user) st.waiting with
      | none => (st, .ignored)
      | some expiresAt =>
          if expiresAt < now then
            ({ st with waiting := mapDelete (keyFor channel user) st.waiting },
             .expiredWindow)
          else
            let st' := { st with waiting := mapDelete (keyFor channel user) st.waiting }
            ((processFileEffect st' fileName userName channel user
                projectsNonEmpty newFileId now).1,
             .waitMatched)

/-! ## The /print command (src/index.js, `app.command('/print')`,
lines 450–503)

With non-empty trimmed text the handler resolves the referenced file and
calls `processFile`; otherwise it opens the interactive modal (or, if
that fails, posts a fallback message).  Neither branch touches the
wait-list: nothing in the source ever inserts into `waiting`. -/

/-- Outcome of one `/print` invocation. -/
inductive CommandOutcome where
  | inlineFileProcessed
  | modalShown
deriving DecidableEq, Repr

/-- One `/print` delivery.  `fileName`/`userName`/`projectsNonEmpty`/
`newFileId` parameterize the `processFile` call on the inline-file
path. -/
def printCommand (st : BotState) (text : String) (_channel user : String) (now : Nat)
    (fileName userName : String) (projectsNonEmpty : Bool) (newFileId : String) :
    BotState × CommandOutcome :=
  if jsTrim text ≠ "" then
    ((processFileEffect st fileName userName _channel user
        projectsNonEmpty newFileId now).1,
     .inlineFileProcessed)
  else
    (st, .modalShown)

/-! ## The legacy follow-up form actions
(src/index.js, `app.action('submit_file_log')` lines 675–742 and
`app.action('cancel_file_log')` lines 745–762), and the deletion timer
scheduled in `processFile` (lines 1050–1052). -/

/-- Outcome of a `submit_file_log` action. -/
inductive SubmitFileOutcome where
  | expiredFileData
  | missingProject
  | logged
deriving DecidableEq, Repr

/-- The `submit_file_log` action for record `fileId`, with the form's
project selection (`none` when absent or empty, i.e. falsy) and notes.
Missing record → "File data expired" reply, nothing changes; missing
project → reply, record kept; otherwise append the sheet row and delete
the record. -/
def submitFileLog (st : BotState) (fileId : String) (project : Option String)
    (notes : String) : BotState × SubmitFileOutcome :=
  match mapGet fileId st.pendingFiles with
  | none => (st, .expiredFileData)
  | some fd =>
      match project with
      | none => (st, .missingProject)
      | some p =>
          ({ st with
              fileLog := st.fileLog ++
                [{ userName := fd.userName, fileName := fd.fileName,
                   project := p, notes := notes }]
              pendingFiles := mapDelete fileId st.pendingFiles },
           .logged)

/-- The `cancel_file_log` action: `global.pendingFiles?.delete(fileId)`. -/
def cancelFileLog (st : BotState) (fileId : String) : BotState :=
  { st with pendingFiles := mapDelete fileId st.pendingFiles }

/-- The `setTimeout` body scheduled by `processFile`:
`global.pendingFiles?.delete(fileId)`. -/
def pendingFileTimerFire (st : BotState) (fileId : String) : BotState :=
  { st with pendingFiles := mapDelete fileId st.pendingFiles }

/-- Modelled from the spec: `registerWait` is absent from the source —
the `waiting` map has readers (`file_shared` fallback, sweep) and a
documenting comment ("In-memory waitlist for /print without immediate
file") but no writer anywhere in the repository.  Per spec §3
(`WaitlistEntry`: `expiresAt` = created-at + 2 minutes) and §4.2
(`registerWait(channelId, requesterId, onMatch)`), registration at time
`now` stores the entry under `keyFor(channel, user)` with expiry
`now + 2 * 60 * 1000`. -/
def registerWait (st : BotState) (channel user : String) (now : Nat) : BotState :=
  { st with waiting := mapSet (keyFor channel user) (now + 2 * 60 * 1000) st.waiting }

/-- The record update performed on completion by the `file_shared`
handler: `{...printRequest, status: 'completed', completedAt: Date.now(),
fileId: file.id, fileName: file.name}`. -/
def completeReq (req : PrintRequest) (now : Nat) (fid fn : String) : PrintRequest :=
  { req with
    status := RequestStatus.completed
    completedAt := some now
    fileId := some fid
    fileName := some fn }

/-! ## Concrete instances used in counterexamples and witnesses -/

/-- The initial state: all three registries empty. -/
def st0 : BotState := ⟨[], [], [], 0, []⟩

/-- A fully valid form submission (scenario A of the spec). -/
def validView : ViewValues :=
  { project := some "Widget", printer := some "X", materials := some "PLA",
    customMaterial := "", notes := "rush" }

/-- A form submission whose notes are the literal string `"none"` and
whose other fields are valid. -/
def noneNotesView : ViewValues :=
  { project := some "Widget", printer := some "X", materials := some "PLA",
    customMaterial := "", notes := "none" }

/-- A form submission with no project selected. -/
def emptyView : ViewValues :=
  { project := none, printer := none, materials := none,
    customMaterial := "", notes := "" }

/-- An awaiting print request of user `U1`. -/
def reqA : PrintRequest :=
  { user_id := "U1", project := "P1", printer := "X", materials := "PLA",
    notes := "n", submittedAt := 0, status := .pending_file_upload }

/-- A second, later awaiting print request of the same user `U1`. -/
def reqB : PrintRequest :=
  { user_id := "U1", project := "P2", printer := "Y", materials := "ABS",
    notes := "m", submittedAt := 1, status := .pending_file_upload }

/-- A state with exactly one awaiting request, for user `U1`. -/
def stOne : BotState := ⟨[("a", reqA)], [], [], 0, []⟩

/-- A pending-file record. -/
def fdemo : PendingFile :=
  { fileName := "part.stl", userName := "User One", channel_id := "C1",
    user_id := "U1", createdAt := 0 }

/-- A state with one pending-file record under id `f1`. -/
def stFile : BotState := ⟨[], [], [("f1", fdemo)], 0, []⟩

end Printbot

namespace Printbot

/-! ### Lemmas about the map operations -/

theorem mapGet_mapSet_self {α : Type} (k : String) (v : α) (m : MapList α) :
    mapGet k (mapSet k v m) = some v := by
  induction m with
  | nil => simp [mapSet, mapGet]
  | cons hd tl ih =>
      obtain ⟨k', v'⟩ := hd
      by_cases h : k' = k
      · simp [mapSet, mapGet, h]
      · simp [mapSet, mapGet, h, ih]

theorem mapSet_of_not_mem {α : Type} (k : String) (v : α) (m : MapList α)
    (h : k ∉ mapKeys m) : mapSet k v m = m ++ [(k, v)] := by
  induction m with
  | nil => simp [mapSet]
  | cons hd tl ih =>
      obtain ⟨k', v'⟩ := hd
      simp only [mapKeys, List.map_cons, List.mem_cons] at h
      push_neg at h
      simp only [mapSet, List.cons_append]
      rw [if_neg (fun he => h.1 he.symm), ih h.2]

theorem mapSet_split {α : Type} (k : String) (v w : α) (pre post : MapList α)
    (h : k ∉ mapKeys pre) :
    mapSet k v (pre ++ (k, w) :: post) = pre ++ (k, v) :: post := by
  induction pre with
  | nil => simp [mapSet]
  | cons hd tl ih =>
      obtain ⟨k', v'⟩ := hd
      simp only [mapKeys, List.map_cons, List.mem_cons] at h
      push_neg at h
      simp only [List.cons_append, mapSet]
      rw [if_neg (fun he => h.1 he.symm)]
      exact congrArg (List.cons (k', v')) (ih h.2)

theorem mapGet_eq_none_of_not_mem {α : Type} (k : String) (m : MapList α)
    (h : k ∉ mapKeys m) : mapGet k m = none := by
  induction m with
  | nil => simp [mapGet]
  | cons hd tl ih =>
      obtain ⟨k', v'⟩ := hd
      simp only [mapKeys, List.map_cons, List.mem_cons] at h
      push_neg at h
      simp only [mapGet]
      rw [if_neg (fun he => h.1 he.symm)]
      exact ih h.2

theorem not_mem_keys_mapDelete {α : Type} (k : String) (m : MapList α)
    (h : (mapKeys m).Nodup) : k ∉ mapKeys (mapDelete k m) := by
  induction m with
  | nil => simp [mapDelete, mapKeys]
  | cons hd tl ih =>
      obtain ⟨k', v'⟩ := hd
      simp only [mapKeys, List.map_cons, List.nodup_cons] at h
      by_cases hk : k' = k
      · subst hk
        simp only [mapDelete, if_pos rfl]
        exact h.1
      · simp only [mapDelete, if_neg hk, mapKeys, List.map_cons, List.mem_cons]
        push_neg
        exact ⟨fun he => hk he.symm, ih h.2⟩

theorem mapGet_mapDelete_self {α : Type} (k : String) (m : MapList α)
    (h : (mapKeys m).Nodup) : mapGet k (mapDelete k m) = none :=
  mapGet_eq_none_of_not_mem k _ (not_mem_keys_mapDelete k m h)

theorem mem_keys_mapSet {α : Type} (a k : String) (v : α) (m : MapList α)
    (h : a ∈ mapKeys (mapSet k v m)) : a = k ∨ a ∈ mapKeys m := by
  induction m with
  | nil => simpa [mapSet, mapKeys] using h
  | cons hd tl ih =>
      obtain ⟨k', v'⟩ := hd
      by_cases hk : k' = k
      · subst hk
        simp [mapSet, mapKeys] at h ⊢
        tauto
      · simp only [mapSet, if_neg hk, mapKeys, List.map_cons, List.mem_cons] at h ⊢
        rcases h with rfl | h
        · tauto
        · rcases ih h with rfl | h2 <;> tauto

theorem nodup_keys_mapSet {α : Type} (k : String) (v : α) (m : MapList α)
    (h : (mapKeys m).Nodup) : (mapKeys (mapSet k v m)).Nodup := by
  induction m with
  | nil => simp [mapSet, mapKeys]
  | cons hd tl ih =>
      obtain ⟨k', v'⟩ := hd
      simp only [mapKeys, List.map_cons, List.nodup_cons] at h
      by_cases hk : k' = k
      · subst hk
        have hset : mapSet k' v ((k', v') :: tl) = (k', v) :: tl := by simp [mapSet]
        rw [hset]
        simp only [mapKeys, List.map_cons, List.nodup_cons]
        exact h
      · simp only [mapSet, if_neg hk, mapKeys, List.map_cons, List.nodup_cons]
        refine ⟨fun hmem => ?_, ih h.2⟩
        rcases mem_keys_mapSet k' k v tl hmem with rfl | h2
        · exact hk rfl
        · exact h.1 h2

/-! ### Lemmas about the awaiting-record scan -/

theorem findAwaiting_none_iff (reg : MapList PrintRequest) (user : String) :
    findAwaiting reg user = none ↔ ∀ e ∈ reg, matchesAwaiting user e = false := by
  induction reg with
  | nil => simp [findAwaiting]
  | cons hd tl ih =>
      simp only [findAwaiting]
      by_cases h : matchesAwaiting user hd
      · simp [h]
      · simp only [if_neg h, ih, List.mem_cons]
        constructor
        · rintro hall e (rfl | he)
          · exact Bool.eq_false_iff.mpr h
          · exact hall e he
        · intro hall e he
          exact hall e (Or.inr he)

theorem findAwaiting_some_iff (reg : MapList PrintRequest) (user : String)
    (e : String × PrintRequest) :
    findAwaiting reg user = some e ↔
      ∃ pre post, reg = pre ++ e :: post ∧ matchesAwaiting user e = true ∧
        ∀ e' ∈ pre, matchesAwaiting user e' = false := by
  induction reg with
  | nil =>
      constructor
      · intro h; simp [findAwaiting] at h
      · rintro ⟨pre, post, h, -, -⟩
        exact absurd h (by simp)
  | cons hd tl ih =>
      simp only [findAwaiting]
      by_cases h : matchesAwaiting user hd
      · simp only [if_pos h, Option.some_inj]
        constructor
        · rintro rfl
          exact ⟨[], tl, rfl, h, by simp⟩
        · rintro ⟨pre, post, heq, hm, hpre⟩
          cases pre with
          | nil =>
              simp only [List.nil_append, List.cons_eq_cons] at heq
              exact heq.1
          | cons p ps =>
              simp only [List.cons_append, List.cons_eq_cons] at heq
              have hfalse := hpre p (List.mem_cons_self p ps)
              rw [← heq.1] at hfalse
              simp [hfalse] at h
      · simp only [if_neg h, ih]
        constructor
        · rintro ⟨pre, post, heq, hm, hpre⟩
          refine ⟨hd :: pre, post, by simp [heq], hm, ?_⟩
          intro e' he'
          rcases List.mem_cons.mp he' with rfl | he'
          · exact Bool.eq_false_iff.mpr h
          · exact hpre e' he'
        · rintro ⟨pre, post, heq, hm, hpre⟩
          cases pre with
          | nil =>
              simp only [List.nil_append, List.cons_eq_cons] at heq
              rw [← heq.1] at hm
              exact absurd hm h
          | cons p ps =>
              simp only [List.cons_append, List.cons_eq_cons] at heq
              refine ⟨ps, post, heq.2, hm, ?_⟩
              intro e' he'
              exact hpre e' (List.mem_cons_of_mem p he')

theorem countAwaiting_eq_zero_iff (reg : MapList PrintRequest) (user : String) :
    countAwaiting reg user = 0 ↔ ∀ e ∈ reg, matchesAwaiting user e = false := by
  simp only [countAwaiting, List.length_eq_zero, List.filter_eq_nil_iff]
  constructor
  · intro h e he
    exact Bool.eq_false_iff.mpr (h e he)
  · intro h e he
    exact Bool.eq_false_iff.mp (h e he)

theorem countAwaiting_append (a b : MapList PrintRequest) (user : String) :
    countAwaiting (a ++ b) user = countAwaiting a user + countAwaiting b user := by
  simp [countAwaiting, List.filter_append]

/-! ### Lemmas about the sweep -/

theorem sweep_eq_filter (w : MapList Nat) (now : Nat) :
    sweep w now =
      (w.filter (fun e => !(e.2 < now)), (w.filter (fun e => e.2 < now)).length) := by
  induction w with
  | nil => simp [sweep]
  | cons hd tl ih =>
      obtain ⟨k, e⟩ := hd
      simp only [sweep, ih]
      by_cases h : e < now
      · simp [h, List.filter]
      · simp [h, List.filter]

/-! ### Lemmas about the sanitizer -/

theorem collapseUnderscores_subset {c : Char} :
    ∀ l : List Char, c ∈ collapseUnderscores l → c ∈ l := by
  intro l
  induction l with
  | nil => simp [collapseUnderscores]
  | cons a tl ih =>
      cases tl with
      | nil => simp [collapseUnderscores]
      | cons b rest =>
          simp only [collapseUnderscores]
          by_cases h : a = '_' ∧ b = '_'
          · obtain ⟨ha, hb⟩ := h
            subst ha; subst hb
            rw [if_pos ⟨rfl, rfl⟩]
            intro hmem
            exact List.mem_cons_of_mem _ (ih hmem)
          · rw [if_neg h]
            intro hmem
            rcases List.mem_cons.mp hmem with rfl | hmem
            · exact List.mem_cons_self _ _
            · exact List.mem_cons_of_mem _ (ih hmem)

theorem collapseUnderscores_head (x : Char) (xs : List Char) :
    ∃ t, collapseUnderscores (x :: xs) = x :: t := by
  induction xs generalizing x with
  | nil => exact ⟨[], rfl⟩
  | cons y rest ih =>
      simp only [collapseUnderscores]
      by_cases h : x = '_' ∧ y = '_'
      · obtain ⟨ha, hb⟩ := h
        subst ha; subst hb
        rw [if_pos ⟨rfl, rfl⟩]
        exact ih '_'
      · exact ⟨collapseUnderscores (y :: rest), by rw [if_neg h]⟩

theorem collapseUnderscores_noDouble :
    ∀ l : List Char, noDoubleUnderscore (collapseUnderscores l) := by
  intro l
  induction l with
  | nil => trivial
  | cons a tl ih =>
      cases tl with
      | nil => trivial
      | cons b rest =>
          simp only [collapseUnderscores]
          by_cases h : a = '_' ∧ b = '_'
          · obtain ⟨ha, hb⟩ := h
            subst ha; subst hb
            rw [if_pos ⟨rfl, rfl⟩]
            exact ih
          · rw [if_neg h]
            obtain ⟨t, ht⟩ := collapseUnderscores_head b rest
            rw [ht]
            rw [ht] at ih
            exact ⟨h, ih⟩

theorem noDoubleUnderscore_take (n : Nat) :
    ∀ l : List Char, noDoubleUnderscore l → noDoubleUnderscore (l.take n) := by
  induction n with
  | zero => intro l _; simp [noDoubleUnderscore]
  | succ m ih =>
      intro l hl
      cases l with
      | nil => trivial
      | cons a tl =>
          cases tl with
          | nil => cases m <;> trivial
          | cons b rest =>
              cases m with
              | zero => trivial
              | succ m' =>
                  obtain ⟨h1, h2⟩ := hl
                  exact ⟨h1, ih (b :: rest) h2⟩

end Printbot

namespace Printbot

/-! ## Claim theorems -/

/-- C10: for every input string, `sanitizeFilename` returns a string of
length at most 255 whose characters are all ASCII letters, digits, `'.'`,
`'-'` or `'_'`, and which never contains two consecutive underscores. -/
theorem sanitizeFilename_safe (s : String) :
    (sanitizeFilename s).length ≤ 255 ∧
    (∀ c ∈ (sanitizeFilename s).data, isAllowedOut c = true) ∧
    noDoubleUnderscore (sanitizeFilename s).data := by
  refine ⟨?_, ?_, ?_⟩
  · show (List.take 255 (collapseUnderscores (s.data.map replaceSpecial))).length ≤ 255
    rw [List.length_take]
    exact min_le_left _ _
  · intro c hc
    have hc' : c ∈ collapseUnderscores (s.data.map replaceSpecial) :=
      List.take_subset _ _ hc
    have hc2 := collapseUnderscores_subset _ hc'
    rcases List.mem_map.mp hc2 with ⟨d, -, rfl⟩
    unfold replaceSpecial isAllowedOut
    by_cases h : isKeptChar d
    · simp [h]
    · simp [h]
  · exact noDoubleUnderscore_take 255 _ (collapseUnderscores_noDouble _)

/-- C3 counterexample: an entry whose expiry equals `now` is *not*
removed by the sweep (the source tests `expiresAt < now`, strictly),
so the sweep differs from the spec's "at or before `now`" behavior. -/
theorem sweep_ne_sweepSpecLe_at_boundary :
    sweep [("c:u", 5)] 5 ≠ sweepSpecLe [("c:u", 5)] 5 := by decide

/-- C3 amended: the sweep removes exactly the entries whose expiry is
strictly before `now`, leaves every other entry untouched (in order),
and the returned count equals the number of removed entries. -/
theorem sweep_removes_strictly_expired (w : MapList Nat) (now : Nat) :
    sweep w now =
      (w.filter (fun e => !(e.2 < now)), (w.filter (fun e => e.2 < now)).length) :=
  sweep_eq_filter w now

/-- C5: the scan routing a file-shared notification returns the first
entry in registry insertion order whose user matches and whose status is
`pending_file_upload`, or none when no entry matches — first-found, not
most-recent. -/
theorem findAwaiting_first_match (reg : MapList PrintRequest) (user : String) :
    (findAwaiting reg user = none ↔ ∀ e ∈ reg, matchesAwaiting user e = false) ∧
    (∀ e, findAwaiting reg user = some e ↔
      ∃ pre post, reg = pre ++ e :: post ∧ matchesAwaiting user e = true ∧
        ∀ e' ∈ pre, matchesAwaiting user e' = false) :=
  ⟨findAwaiting_none_iff reg user, fun e => findAwaiting_some_iff reg user e⟩

/-- C5 witness: with two awaiting records for `U1`, the scan returns the
first-inserted one, not the most recent. -/
theorem findAwaiting_first_match_witness :
    findAwaiting [("a", reqA), ("b", reqB)] "U1" = some ("a", reqA) :=
  ((findAwaiting_first_match [("a", reqA), ("b", reqB)] "U1").2 ("a", reqA)).mpr
    ⟨[], [("b", reqB)], rfl, by decide, by decide⟩

/-- C2 counterexample: a submission whose notes are the placeholder
string `"none"` (all other fields valid) is invalid per the claim, yet
the handler accepts it and mutates the registry. -/
theorem viewSubmit_accepts_none_notes :
    specFieldInvalid .notes noneNotesView = true ∧
    (viewSubmit noneNotesView "U1" "req1" 0 []).2 = .accepted "req1" ∧
    (viewSubmit noneNotesView "U1" "req1" 0 []).1 ≠ [] := by decide

/-- C4 counterexample: after two accepted form submissions by the same
user, the (reachable) registry holds two `pending_file_upload` records
for that requester, violating the at-most-one invariant. -/
theorem two_submissions_two_awaiting :
    ¬ (countAwaiting (viewSubmit validView "U1" "id2" 1
        (viewSubmit validView "U1" "id1" 0 []).1).1 "U1" ≤ 1) := by decide

/-- C7 counterexample: a wait-list entry registered at `T = 0` is still
matched — and the upload pipeline runs — when the notification arrives
at exactly `T + 2` minutes, because the source tests
`Date.now() > wait.expiresAt` strictly. -/
theorem waitlist_boundary_still_matches :
    (fileShared (registerWait st0 "C1" "U1" 0) "C1" "U1" "F1" "p.stl"
        120000 "U" true "nf").2 = .waitMatched ∧
    (fileShared (registerWait st0 "C1" "U1" 0) "C1" "U1" "F1" "p.stl"
        120000 "U" true "nf").1.uploads = 1 := by decide

/-- C6: the `/print` handler never writes the wait-list — no branch of
the source inserts into `waiting` — so after a bare `/print` (empty
text) the wait-list is still empty and a file-shared notification for
the same channel/user 90 seconds later is silently ignored instead of
matching, contrary to the documented wait-list path. -/
theorem printCommand_never_registers_wait :
    (∀ st text ch u now fn un pne nf,
        (printCommand st text ch u now fn un pne nf).1.waiting = st.waiting) ∧
    (printCommand st0 "" "C1" "U1" 0 "p.stl" "User" true "nf1").1.waiting = [] ∧
    (printCommand st0 "" "C1" "U1" 0 "p.stl" "User" true "nf1").2 = .modalShown ∧
    fileShared st0 "C1" "U1" "F1" "p.stl" 90000 "User" true "nf2" = (st0, .ignored) := by
  refine ⟨?_, by decide, by decide, by decide⟩
  intro st text ch u now fn un pne nf
  unfold printCommand processFileEffect
  split_ifs <;> rfl

end Printbot

namespace Printbot

/-- C2 amended: the handler rejects a submission naming field `f` exactly
when `f` is the first field in check order (project, printer, materials,
custom material, notes) failing its validation criterion — project,
printer and the effective material are rejected when missing, empty or
`'none'`; custom material only when `'Other'` is selected and it is
blank; notes only when blank — and the registry is unchanged on every
validation failure path. -/
theorem viewSubmit_validation (v : ViewValues) (u id : String) (now : Nat)
    (reg : MapList PrintRequest) :
    (∀ f, (viewSubmit v u id now reg).2 = .rejected f ↔
        checkOrder.find? (fun g => fieldFails g v) = some f) ∧
    (∀ f, (viewSubmit v u id now reg).2 = .rejected f →
        (viewSubmit v u id now reg).1 = reg) := by
  unfold viewSubmit checkOrder
  split_ifs with h1 h2 h3 h4 h5
  · constructor
    · intro f
      simp [List.find?, fieldFails, h1]
    · intro f _
      rfl
  · constructor
    · intro f
      simp [List.find?, fieldFails, h1, h2]
    · intro f _
      rfl
  · constructor
    · intro f
      simp [List.find?, fieldFails, h1, h2, h3]
    · intro f _
      rfl
  · constructor
    · intro f
      simp [List.find?, fieldFails, h1, h2, h3, h4]
    · intro f _
      rfl
  · constructor
    · intro f
      simp [List.find?, fieldFails, h1, h2, h3, h4, h5]
    · intro f _
      rfl
  · constructor
    · intro f
      simp [List.find?, fieldFails, h1, h2, h3, h4, h5]
    · intro f h
      simp at h

/-- C2 witness: a submission with nothing selected is rejected naming
the project field, and the registry stays empty. -/
theorem viewSubmit_validation_witness :
    (viewSubmit emptyView "U1" "r1" 0 []).2 = .rejected .project ∧
    (viewSubmit emptyView "U1" "r1" 0 []).1 = [] :=
  ⟨((viewSubmit_validation emptyView "U1" "r1" 0 []).1 ReqField.project).mpr (by decide),
   (viewSubmit_validation emptyView "U1" "r1" 0 []).2 ReqField.project
     (((viewSubmit_validation emptyView "U1" "r1" 0 []).1 ReqField.project).mpr (by decide))⟩

/-- C4 amended: a successful form submission appends one new
`pending_file_upload` record for the requester without replacing
existing ones — the requester's awaiting count grows by exactly one
(so a requester can accumulate several awaiting submissions), and other
requesters' counts are unchanged. -/
theorem viewSubmit_accepted_appends_awaiting (v : ViewValues) (u id : String)
    (now : Nat) (reg : MapList PrintRequest) (id' : String)
    (hacc : (viewSubmit v u id now reg).2 = .accepted id')
    (hfresh : id ∉ mapKeys reg) :
    countAwaiting (viewSubmit v u id now reg).1 u = countAwaiting reg u + 1 ∧
    ∀ u', u' ≠ u → countAwaiting (viewSubmit v u id now reg).1 u' = countAwaiting reg u' := by
  unfold viewSubmit at hacc ⊢
  split_ifs at hacc ⊢
  simp at hacc
  simp only
  rw [mapSet_of_not_mem _ _ _ hfresh]
  constructor
  · rw [countAwaiting_append]
    simp [countAwaiting, List.filter, matchesAwaiting]
  · intro u' hne
    rw [countAwaiting_append]
    simp [countAwaiting, List.filter, matchesAwaiting, hne.symm]

/-- C4 witness: a valid submission into the empty registry raises the
requester's awaiting count from 0 to 1. -/
theorem viewSubmit_accepted_appends_awaiting_witness :
    countAwaiting (viewSubmit validView "U1" "id1" 0 ([] : MapList PrintRequest)).1 "U1"
      = countAwaiting ([] : MapList PrintRequest) "U1" + 1 :=
  (viewSubmit_accepted_appends_awaiting validView "U1" "id1" 0 [] "id1"
    (by decide) (by decide)).1

/-- C1: with exactly one awaiting submission for the requester and no
wait-list entry for the channel/user, the first file-shared notification
completes that submission and runs the upload+log pipeline exactly once,
and the second notification finds no awaiting record, misses the
wait-list, and is silently ignored with no further state change. -/
theorem fileShared_duplicate_delivery (st : BotState)
    (ch u f1 n1 un1 nf1 f2 n2 un2 nf2 : String) (t1 t2 : Nat) (p1 p2 : Bool)
    (hone : countAwaiting st.pendingPrintRequests u = 1)
    (hnodup : (mapKeys st.pendingPrintRequests).Nodup)
    (hwait : mapGet (keyFor ch u) st.waiting = none) :
    (∃ id, (fileShared st ch u f1 n1 t1 un1 p1 nf1).2 = .completedRequest id) ∧
    (fileShared st ch u f1 n1 t1 un1 p1 nf1).1.uploads = st.uploads + 1 ∧
    fileShared (fileShared st ch u f1 n1 t1 un1 p1 nf1).1 ch u f2 n2 t2 un2 p2 nf2
      = ((fileShared st ch u f1 n1 t1 un1 p1 nf1).1, .ignored) := by
  cases hfind : findAwaiting st.pendingPrintRequests u with
  | none =>
      rw [findAwaiting_none_iff] at hfind
      rw [(countAwaiting_eq_zero_iff _ _).mpr hfind] at hone
      exact absurd hone (by simp)
  | some e =>
      obtain ⟨id, req⟩ := e
      obtain ⟨pre, post, hsplit, hm, hpre⟩ := (findAwaiting_some_iff _ _ _).mp hfind
      have hcpre : countAwaiting pre u = 0 := (countAwaiting_eq_zero_iff _ _).mpr hpre
      have hcnt : countAwaiting st.pendingPrintRequests u
          = countAwaiting pre u + countAwaiting ((id, req) :: post) u := by
        rw [hsplit, countAwaiting_append]
      have hcons : countAwaiting ((id, req) :: post) u = countAwaiting post u + 1 := by
        simp [countAwaiting, List.filter_cons, hm]
      have hpost : countAwaiting post u = 0 := by omega
      have hpostall : ∀ e ∈ post, matchesAwaiting u e = false :=
        (countAwaiting_eq_zero_iff _ _).mp hpost
      have hkeys : mapKeys st.pendingPrintRequests = mapKeys pre ++ id :: mapKeys post := by
        rw [hsplit]; simp [mapKeys]
      rw [hkeys] at hnodup
      have hidpre : id ∉ mapKeys pre := by
        intro hmem
        rcases List.nodup_append.mp hnodup with ⟨-, -, hdisj⟩
        exact hdisj hmem (List.mem_cons_self _ _)
      have hset : mapSet id (completeReq req t1 f1 n1) st.pendingPrintRequests
          = pre ++ (id, completeReq req t1 f1 n1) :: post := by
        rw [hsplit]
        exact mapSet_split _ _ _ _ _ hidpre
      have hfs1 : fileShared st ch u f1 n1 t1 un1 p1 nf1
          = ({ st with
                pendingPrintRequests :=
                  mapSet id (completeReq req t1 f1 n1) st.pendingPrintRequests,
                uploads := st.uploads + 1 }, .completedRequest id) := by
        unfold fileShared
        rw [hfind]
        rfl
      have hfind2 : findAwaiting
          (mapSet id (completeReq req t1 f1 n1) st.pendingPrintRequests) u = none := by
        rw [hset, findAwaiting_none_iff]
        intro e he
        rcases List.mem_append.mp he with h | h
        · exact hpre e h
        · rcases List.mem_cons.mp h with rfl | h
          · simp [matchesAwaiting, completeReq]
          · exact hpostall e h
      refine ⟨⟨id, by rw [hfs1]⟩, by rw [hfs1], ?_⟩
      rw [hfs1]
      unfold fileShared
      simp only
      rw [hfind2]
      simp only
      rw [hwait]

/-- C1 witness: concretely, with one awaiting submission for `U1` and an
empty wait-list, the second of two file notifications is ignored and
changes nothing. -/
theorem fileShared_duplicate_delivery_witness :
    fileShared (fileShared stOne "C1" "U1" "F1" "a.stl" 10 "U" true "nf1").1
        "C1" "U1" "F2" "b.stl" 20 "U" true "nf2"
      = ((fileShared stOne "C1" "U1" "F1" "a.stl" 10 "U" true "nf1").1, .ignored) :=
  (fileShared_duplicate_delivery stOne "C1" "U1" "F1" "a.stl" "U" "nf1" "F2" "b.stl"
    "U" "nf2" 10 20 true true (by decide) (by decide) (by decide)).2.2

end Printbot

namespace Printbot

/-- C8: completing a pending submission sets its status to `completed`,
stamps `completedAt`, attaches the file id and name, leaves every other
field of the record and every other registry entry unchanged (the
surrounding entries `pre`/`post` are untouched), and the completed
record stays in the registry; the other registries are untouched. -/
theorem fileShared_completion_frame (st : BotState) (ch u fid fn un nf : String)
    (now : Nat) (pne : Bool) (id : String) (req : PrintRequest)
    (hfind : findAwaiting st.pendingPrintRequests u = some (id, req))
    (hnodup : (mapKeys st.pendingPrintRequests).Nodup) :
    (fileShared st ch u fid fn now un pne nf).2 = .completedRequest id ∧
    (∃ pre post,
      st.pendingPrintRequests = pre ++ (id, req) :: post ∧
      (fileShared st ch u fid fn now un pne nf).1.pendingPrintRequests =
        pre ++ (id, completeReq req now fid fn) :: post) ∧
    (completeReq req now fid fn).user_id = req.user_id ∧
    (completeReq req now fid fn).project = req.project ∧
    (completeReq req now fid fn).printer = req.printer ∧
    (completeReq req now fid fn).materials = req.materials ∧
    (completeReq req now fid fn).notes = req.notes ∧
    (completeReq req now fid fn).submittedAt = req.submittedAt ∧
    (completeReq req now fid fn).status = RequestStatus.completed ∧
    (completeReq req now fid fn).completedAt = some now ∧
    (completeReq req now fid fn).fileId = some fid ∧
    (completeReq req now fid fn).fileName = some fn ∧
    (fileShared st ch u fid fn now un pne nf).1.waiting = st.waiting ∧
    (fileShared st ch u fid fn now un pne nf).1.pendingFiles = st.pendingFiles ∧
    (fileShared st ch u fid fn now un pne nf).1.fileLog = st.fileLog := by
  obtain ⟨pre, post, hsplit, hm, hpre⟩ := (findAwaiting_some_iff _ _ _).mp hfind
  have hkeys : mapKeys st.pendingPrintRequests = mapKeys pre ++ id :: mapKeys post := by
    rw [hsplit]; simp [mapKeys]
  rw [hkeys] at hnodup
  have hidpre : id ∉ mapKeys pre := by
    intro hmem
    rcases List.nodup_append.mp hnodup with ⟨-, -, hdisj⟩
    exact hdisj hmem (List.mem_cons_self _ _)
  have hfs : fileShared st ch u fid fn now un pne nf
      = ({ st with
            pendingPrintRequests :=
              mapSet id (completeReq req now fid fn) st.pendingPrintRequests,
            uploads := st.uploads + 1 }, .completedRequest id) := by
    unfold fileShared
    rw [hfind]
    rfl
  have hset : mapSet id (completeReq req now fid fn) st.pendingPrintRequests
      = pre ++ (id, completeReq req now fid fn) :: post := by
    rw [hsplit]
    exact mapSet_split _ _ _ _ _ hidpre
  refine ⟨by rw [hfs], ⟨pre, post, hsplit, by rw [hfs]; exact hset⟩,
    rfl, rfl, rfl, rfl, rfl, rfl, rfl, rfl, rfl, rfl,
    by rw [hfs], by rw [hfs], by rw [hfs]⟩

/-- C8 witness: completing the single awaiting submission of `U1`. -/
theorem fileShared_completion_frame_witness :
    (fileShared stOne "C1" "U1" "F9" "part.stl" 42 "U" true "nf").2
      = .completedRequest "a" :=
  (fileShared_completion_frame stOne "C1" "U1" "F9" "part.stl" "U" "nf" 42 true
    "a" reqA (by decide) (by decide)).1

/-- C7 amended: a wait-list entry registered at `T` (modelled from the
spec, expiry `T + 2` minutes) blocks nothing at exactly `T + 2` minutes,
but for a notification arriving strictly after `T + 2` minutes — with no
awaiting submission matching the requester — no upload runs, the entry
is removed, the user gets the expired reply, and from then on resolution
finds no match (a later notification is silently ignored). -/
theorem waitlist_unresolvable_after_window (st : BotState)
    (ch u f fn un nf f2 fn2 un2 nf2 : String) (T now now2 : Nat) (pne pne2 : Bool)
    (hnoawait : findAwaiting st.pendingPrintRequests u = none)
    (hnodup : (mapKeys st.waiting).Nodup)
    (hlate : T + 2 * 60 * 1000 < now) :
    (fileShared (registerWait st ch u T) ch u f fn now un pne nf).2 = .expiredWindow ∧
    (fileShared (registerWait st ch u T) ch u f fn now un pne nf).1.uploads = st.uploads ∧
    mapGet (keyFor ch u)
      (fileShared (registerWait st ch u T) ch u f fn now un pne nf).1.waiting = none ∧
    fileShared (fileShared (registerWait st ch u T) ch u f fn now un pne nf).1
        ch u f2 fn2 now2 un2 pne2 nf2
      = ((fileShared (registerWait st ch u T) ch u f fn now un pne nf).1, .ignored) := by
  have hExpired : ∀ st' : BotState, findAwaiting st'.pendingPrintRequests u = none →
      mapGet (keyFor ch u) st'.waiting = some (T + 2 * 60 * 1000) →
      fileShared st' ch u f fn now un pne nf
        = ({ st' with waiting := mapDelete (keyFor ch u) st'.waiting },
           .expiredWindow) := by
    intro st' h1 h2
    unfold fileShared
    rw [h1]
    simp only
    rw [h2]
    simp only [if_pos hlate]
  have hIgnored : ∀ st' : BotState, findAwaiting st'.pendingPrintRequests u = none →
      mapGet (keyFor ch u) st'.waiting = none →
      fileShared st' ch u f2 fn2 now2 un2 pne2 nf2 = (st', .ignored) := by
    intro st' h1 h2
    unfold fileShared
    rw [h1]
    simp only
    rw [h2]
  have hfs : fileShared (registerWait st ch u T) ch u f fn now un pne nf
      = ({ registerWait st ch u T with
           waiting := mapDelete (keyFor ch u) (registerWait st ch u T).waiting },
         .expiredWindow) :=
    hExpired _ hnoawait (mapGet_mapSet_self _ _ _)
  have hdel : mapGet (keyFor ch u)
      (mapDelete (keyFor ch u) (registerWait st ch u T).waiting) = none :=
    mapGet_mapDelete_self _ _ (nodup_keys_mapSet _ _ _ hnodup)
  refine ⟨by rw [hfs], by rw [hfs]; rfl, by rw [hfs]; exact hdel, ?_⟩
  rw [hfs]
  exact hIgnored _ hnoawait hdel

/-- C7 witness: an entry registered at `T = 0` queried one millisecond
after the two-minute mark gets the expired reply. -/
theorem waitlist_unresolvable_after_window_witness :
    (fileShared (registerWait st0 "C1" "U1" 0) "C1" "U1" "F1" "p.stl"
        120001 "U" true "nf").2 = .expiredWindow :=
  (waitlist_unresolvable_after_window st0 "C1" "U1" "F1" "p.stl" "U" "nf"
    "F2" "q.stl" "U" "nf2" 0 120001 200000 true true
    (by decide) (by decide) (by decide)).1

/-- C9: a pending-file record is removed on confirmed submit (the log
row is appended), on cancel, and on the deletion timer — which is
scheduled 5 minutes after creation — and once absent, a later submit of
that id returns the expired message with no state change and no log
row. -/
theorem pendingFiles_lifecycle (st : BotState) (id : String) (fd : PendingFile)
    (p notes fn un ch u nid : String) (now : Nat)
    (hnodup : (mapKeys st.pendingFiles).Nodup) :
    (mapGet id st.pendingFiles = some fd →
        (submitFileLog st id (some p) notes).2 = .logged ∧
        mapGet id (submitFileLog st id (some p) notes).1.pendingFiles = none ∧
        (submitFileLog st id (some p) notes).1.fileLog =
          st.fileLog ++ [{ userName := fd.userName, fileName := fd.fileName,
                           project := p, notes := notes }]) ∧
    mapGet id (cancelFileLog st id).pendingFiles = none ∧
    mapGet id (pendingFileTimerFire st id).pendingFiles = none ∧
    (processFileEffect st fn un ch u true nid now).2 = some (now + 5 * 60 * 1000) ∧
    (mapGet id st.pendingFiles = none →
        submitFileLog st id (some p) notes = (st, .expiredFileData)) := by
  refine ⟨?_, mapGet_mapDelete_self _ _ hnodup, mapGet_mapDelete_self _ _ hnodup,
    rfl, ?_⟩
  · intro h
    have hs : submitFileLog st id (some p) notes
        = ({ st with
             fileLog := st.fileLog ++
               [{ userName := fd.userName, fileName := fd.fileName,
                  project := p, notes := notes }]
             pendingFiles := mapDelete id st.pendingFiles },
           .logged) := by
      unfold submitFileLog
      rw [h]
    exact ⟨by rw [hs], by rw [hs]; exact mapGet_mapDelete_self _ _ hnodup,
      by rw [hs]⟩
  · intro h
    unfold submitFileLog
    rw [h]

/-- C9 witness: a confirmed submit of the stored record `f1` logs one
row and leaves no record behind. -/
theorem pendingFiles_lifecycle_witness :
    (submitFileLog stFile "f1" (some "Widget") "note").2 = .logged ∧
    mapGet "f1" (submitFileLog stFile "f1" (some "Widget") "note").1.pendingFiles = none ∧
    (submitFileLog stFile "f1" (some "Widget") "note").1.fileLog =
      stFile.fileLog ++ [{ userName := fdemo.userName, fileName := fdemo.fileName,
                           project := "Widget", notes := "note" }] :=
  (pendingFiles_lifecycle stFile "f1" fdemo "Widget" "note" "x" "x" "x" "x" "nid" 0
    (by decide)).1 (by decide)

/-- C10 witness: a concrete instantiation of the sanitizer bound. -/
theorem sanitizeFilename_safe_witness :
    (sanitizeFilename "a b/c__d!").length ≤ 255 :=
  (sanitizeFilename_safe "a b/c__d!").1

/-- C3 witness: a concrete sweep — the entry expiring at 3 is removed at
`now = 5`, the entry expiring at 7 survives, and the count is 1. -/
theorem sweep_removes_strictly_expired_witness :
    sweep [("k1", 3), ("k2", 7)] 5 = ([("k2", 7)], 1) :=
  (sweep_removes_strictly_expired [("k1", 3), ("k2", 7)] 5).trans (by decide)

end Printbot
